import Mathlib

/-!
# Verification of the BK168xB power-supply protocol engine

A shallow embedding of the bk168xb-rs crate's command/response framing and
numeric codec engine, together with theorems checking the crate's
specification against the code.

Modelling conventions:

* Bytes are `Nat` (values 0–255 in practice); wire strings are `List Nat`.
* Rust `f32` values are modelled as exact rationals `ℚ`.  All rationals are
  finite, so the `!val.is_finite()` guard of `output_val` has no analogue;
  the claims about encode/decode are stated on this exact-arithmetic model,
  which is the reading the specification itself adopts ("up to
  floating-point rounding").
* `usize` is 64 bits; `u32` casts from floats saturate, as in Rust.
* A Rust panic (e.g. `slice::split_at` out of bounds) is modelled by
  `Option`: `none` is a panic, `some r` a normal return of `r`.
* Writing to an `io::Write` sink is modelled by threading the list of bytes
  written so far; the sink writes of this crate's tests (`Vec<u8>`) never
  fail, so a serialize call returns an optional error together with the
  final sink contents.
-/

namespace BK168xb

def asciiOf (s : String) : List Nat := s.data.map Char.toNat

/-- Errors of the command (encode) path, from `command/error.rs`. -/
inductive CommandError where
  | ValueUnrepresentable : ℚ → CommandError
  | WriteFailure : Nat → CommandError
deriving DecidableEq

/-- Errors of the response (decode) path, from `response/error.rs`.
The payload of `ReadFailure` abstracts the wrapped `io::Error` as a tag. -/
inductive ResponseError where
  | MalformedResponse : ResponseError
  | NoResponse : ResponseError
  | ReadFailure : Nat → ResponseError
deriving DecidableEq

/-- Output state of the supply (`core.rs`). -/
inductive OutputState where
  | On : OutputState
  | Off : OutputState
deriving DecidableEq

/-- `OutputState::arg_val`: inverted logic, 0 for on and 1 for off. -/
def OutputState.arg_val : OutputState → Nat
  | .On => 0
  | .Off => 1

/-- A supply's output mode (`core.rs`). -/
inductive OutputMode where
  | ConstantVoltage : OutputMode
  | ConstantCurrent : OutputMode
deriving DecidableEq

/-- Preset selector (`core.rs`). -/
inductive PresetIndex where
  | One : PresetIndex
  | Two : PresetIndex
  | Three : PresetIndex
deriving DecidableEq

/-- `PresetIndex::arg_val`. -/
def PresetIndex.arg_val : PresetIndex → Nat
  | .One => 0
  | .Two => 1
  | .Three => 2

/-- A power-supply operating point (`core.rs`). -/
structure OperatingPoint where
  voltage : ℚ
  current : ℚ
deriving DecidableEq

/-- Per-model supply information (`core.rs`). -/
structure SupplyVariant where
  model : String
  nominal_max_voltage : Nat
  nominal_max_current : Nat
  current_decimals : Nat
  voltage_decimals : Nat
deriving DecidableEq

/-- The 1685B (60 V / 5 A) model. -/
def BK1685B : SupplyVariant :=
  { model := "BK1685B", nominal_max_voltage := 60, nominal_max_current := 5
    current_decimals := 2, voltage_decimals := 1 }

/-- The 1687B (36 V / 10 A) model. -/
def BK1687B : SupplyVariant :=
  { model := "BK1687B", nominal_max_voltage := 36, nominal_max_current := 10
    current_decimals := 1, voltage_decimals := 1 }

/-- The 1688B (18 V / 20 A) model. -/
def BK1688B : SupplyVariant :=
  { model := "BK1688B", nominal_max_voltage := 18, nominal_max_current := 20
    current_decimals := 1, voltage_decimals := 1 }

/-- The fixed registry iterated by `variant_for_max_voltage`, in source
order: `&[BK1685B, BK1687B, BK1688B]`. -/
def supplyRegistry : List SupplyVariant := [BK1685B, BK1687B, BK1688B]

/-- The acceptance band of one registry entry:
`voltage >= nom_volt && voltage < nom_volt + 10`. -/
def bandContains (s : SupplyVariant) (voltage : ℚ) : Bool :=
  decide ((s.nominal_max_voltage : ℚ) ≤ voltage) &&
    decide (voltage < (s.nominal_max_voltage : ℚ) + 10)

/-- `variant_for_max_voltage` (`core.rs`): first registry entry whose band
contains the voltage. -/
def variant_for_max_voltage (voltage : ℚ) : Option SupplyVariant :=
  supplyRegistry.find? (fun s => bandContains s voltage)

/-! ## Decimal digit strings -/

/-- Value of a big-endian ASCII digit string, accumulator style (the value
computed by `usize::from_str_radix` on an all-digit string). -/
def digitsVal (bs : List Nat) : Nat :=
  bs.foldl (fun acc b => acc * 10 + (b - 48)) 0

/-- Little-endian base-10 digits with explicit fuel (structural recursion,
so that the kernel can evaluate it). -/
def toDigitsLE : Nat → Nat → List Nat
  | 0, _ => []
  | fuel + 1, n => if n = 0 then [] else n % 10 :: toDigitsLE fuel (n / 10)

/-- Little-endian base-10 digits of `n` (empty for `n = 0`). -/
def natDigitsLE (n : Nat) : List Nat := toDigitsLE n n

/-- The decimal rendering of a `u32` by Rust's `Display`: big-endian digit
bytes, `"0"` for zero. -/
def renderNat (n : Nat) : List Nat :=
  if n = 0 then [48] else ((natDigitsLE n).map (fun d => 48 + d)).reverse

/-- `write!(sink, "{arg:0width$}", ...)`: decimal rendering left-padded
with `'0'` to `width` characters (never truncated). -/
def renderPadded (width : Nat) (n : Nat) : List Nat :=
  List.replicate (width - (renderNat n).length) 48 ++ renderNat n

/-- `usize::from_str_radix` strips one optional leading `'+'` sign. -/
def stripPlus : List Nat → List Nat
  | [] => []
  | b :: rest => if b = 43 then rest else b :: rest

def USIZE_MAX : Nat := 2 ^ 64 - 1

def U32_MAX : Nat := 2 ^ 32 - 1

/-- `usize::from_str_radix(s, 10)` on the bytes of `s`: an optional single
leading `'+'` followed by one or more ASCII digits, value at most
`usize::MAX`.  (A slice that is not valid UTF-8 fails `str::from_utf8`
instead; every such byte also fails the digit test, so one check models
both failure paths.) -/
def rustParseUsize (bs : List Nat) : Option Nat :=
  let ds := stripPlus bs
  if ds.isEmpty then none
  else if ds.all (fun b => 48 ≤ b && b ≤ 57) then
    if digitsVal ds ≤ USIZE_MAX then some (digitsVal ds) else none
  else none

/-- `f32::round`: round to nearest, ties away from zero. -/
def rustRound (q : ℚ) : ℤ :=
  if 0 ≤ q then ⌊q + 1 / 2⌋ else ⌈q - 1 / 2⌉

/-- Rust's saturating float-to-`u32` cast (`as u32`): negatives clamp to 0,
values above `u32::MAX` clamp to `u32::MAX`. -/
def f32_to_u32 (z : ℤ) : Nat := min z.toNat U32_MAX

/-! ## The numeric field codec `ArgFormat` (`core.rs`) -/

structure ArgFormat where
  decimals : Nat
  digits : Nat
deriving DecidableEq

/-- `ArgFormat::factor`: `10^decimals`. -/
def ArgFormat.factor (f : ArgFormat) : ℚ := 10 ^ f.decimals

/-- `ArgFormat::max`: `(10^digits - 1) / factor`. -/
def ArgFormat.max (f : ArgFormat) : ℚ := (10 ^ f.digits - 1) / f.factor

/-- `ArgFormat::output_val`: reject negative or out-of-range values (the
non-finite guard has no analogue over `ℚ`), otherwise round the scaled
value and cast to `u32` (saturating). -/
def ArgFormat.output_val (f : ArgFormat) (val : ℚ) : Option Nat :=
  if val < 0 ∨ f.max < val then none
  else some (f32_to_u32 (rustRound (val * f.factor)))

/-- `ArgFormat::serialize_arg`: on success append the zero-padded rendering
to the sink, on failure report `ValueUnrepresentable` leaving the sink
untouched. -/
def ArgFormat.serialize_arg (f : ArgFormat) (sink : List Nat) (val : ℚ) :
    Option CommandError × List Nat :=
  match f.output_val val with
  | none => (some (.ValueUnrepresentable val), sink)
  | some n => (none, sink ++ renderPadded f.digits n)

/-- `ArgFormat::parse`: length must equal `digits`, then
`usize::from_str_radix`, then divide by `10^decimals`. -/
def ArgFormat.parse (f : ArgFormat) (raw : List Nat) :
    Except ResponseError ℚ :=
  if raw.length ≠ f.digits then .error .MalformedResponse
  else
    match rustParseUsize raw with
    | none => .error .MalformedResponse
    | some n => .ok ((n : ℚ) / f.factor)

/-! ## Command serialization (`command/core.rs`) -/

/-- Serialize argument fields in declared order, threading the sink;
stop at the first unrepresentable field (`?` operator). -/
def serializeFields : List (ArgFormat × ℚ) → List Nat →
    Option CommandError × List Nat
  | [], sink => (none, sink)
  | (f, v) :: rest, sink =>
    match f.output_val v with
    | none => (some (.ValueUnrepresentable v), sink)
    | some n => serializeFields rest (sink ++ renderPadded f.digits n)

/-- `CommandSink::send_command`: write the four-byte function code, then
the argument fields, then the terminator `\r`; each `?` aborts but leaves
already-written bytes in the sink. -/
def send_command (function : List Nat) (fields : List (ArgFormat × ℚ)) :
    Option CommandError × List Nat :=
  match serializeFields fields function with
  | (some e, sink) => (some e, sink)
  | (none, sink) => (none, sink ++ [13])

/-- Argument fields of `SetOutput` (`command/set_output.rs`): a single
protocol-fixed 1-digit field carrying `OutputState::arg_val`; the supply
variant parameter is unused. -/
def SetOutput.fields (_variant : SupplyVariant) (s : OutputState) :
    List (ArgFormat × ℚ) :=
  [(⟨0, 1⟩, (s.arg_val : ℚ))]

/-- `SetOutput` serialization: function code `"SOUT"` then the flag. -/
def SetOutput.send (variant : SupplyVariant) (s : OutputState) :
    Option CommandError × List Nat :=
  send_command (asciiOf "SOUT") (SetOutput.fields variant s)

/-- Argument fields of `SetPresets` (`command/set_presets.rs`): voltage and
current of each of the three operating points in order, voltage with the
variant's `voltage_decimals` and current with `current_decimals`, all with
3 digits. -/
def SetPresets.fields (variant : SupplyVariant)
    (p0 p1 p2 : OperatingPoint) : List (ArgFormat × ℚ) :=
  [(⟨variant.voltage_decimals, 3⟩, p0.voltage),
   (⟨variant.current_decimals, 3⟩, p0.current),
   (⟨variant.voltage_decimals, 3⟩, p1.voltage),
   (⟨variant.current_decimals, 3⟩, p1.current),
   (⟨variant.voltage_decimals, 3⟩, p2.voltage),
   (⟨variant.current_decimals, 3⟩, p2.current)]

/-- `SetPresets` serialization: function code `"PROM"` then six fields. -/
def SetPresets.send (variant : SupplyVariant)
    (p0 p1 p2 : OperatingPoint) : Option CommandError × List Nat :=
  send_command (asciiOf "PROM") (SetPresets.fields variant p0 p1 p2)

/-! ## Response decoding (`response/*.rs`)

Decoders that contain a fallible slice operation (`split_at`) return an
`Option`: `none` models a Rust panic, `some` a normal return. -/

abbrev RResult (α : Type) := Except ResponseError α

/-- `slice::split_at(mid)`: panics (`none`) when `mid > len`. -/
def splitAtChecked (mid : Nat) (l : List Nat) :
    Option (List Nat × List Nat) :=
  if mid ≤ l.length then some (l.take mid, l.drop mid) else none

/-- Propagate a panic or an error through a decoding step. -/
def pbind {α β : Type} : Option (RResult α) → (α → Option (RResult β)) →
    Option (RResult β)
  | none, _ => none
  | some (.error e), _ => some (.error e)
  | some (.ok a), f => f a

/-- The supply's output settings (`response/settings.rs`). -/
structure Settings where
  voltage : ℚ
  current : ℚ
deriving DecidableEq

/-- `Settings::parse_args`: split at byte 3 into voltage then current,
decoded with the variant's respective decimal counts (3 digits each). -/
def Settings.parse_args (raw : List Nat) (variant : SupplyVariant) :
    Option (RResult Settings) :=
  let volt_fmt : ArgFormat := ⟨variant.voltage_decimals, 3⟩
  let curr_fmt : ArgFormat := ⟨variant.current_decimals, 3⟩
  match splitAtChecked volt_fmt.digits raw with
  | none => none
  | some (volt_raw, curr_raw) =>
    match volt_fmt.parse volt_raw with
    | .error e => some (.error e)
    | .ok voltage =>
      match curr_fmt.parse curr_raw with
      | .error e => some (.error e)
      | .ok current => some (.ok ⟨voltage, current⟩)

/-- The supply's instantaneous state (`response/status.rs`). -/
structure Status where
  voltage : ℚ
  current : ℚ
  mode : OutputMode
deriving DecidableEq

/-- `Status::parse_args`: protocol-fixed `decimals = 2, digits = 4` for
both fields regardless of variant; `split_last` takes the mode byte, the
rest splits at 4 into voltage then current; the mode byte must be `'0'`
(constant voltage) or `'1'` (constant current). -/
def Status.parse_args (raw : List Nat) (_variant : SupplyVariant) :
    Option (RResult Status) :=
  let arg_fmt : ArgFormat := ⟨2, 4⟩
  match raw.reverse with
  | [] => some (.error .MalformedResponse)
  | mode_raw :: rev_args =>
    let args_raw := rev_args.reverse
    match splitAtChecked arg_fmt.digits args_raw with
    | none => none
    | some (volt_raw, curr_raw) =>
      match arg_fmt.parse volt_raw with
      | .error e => some (.error e)
      | .ok voltage =>
        match arg_fmt.parse curr_raw with
        | .error e => some (.error e)
        | .ok current =>
          if mode_raw = 48 then
            some (.ok ⟨voltage, current, .ConstantVoltage⟩)
          else if mode_raw = 49 then
            some (.ok ⟨voltage, current, .ConstantCurrent⟩)
          else some (.error .MalformedResponse)

/-- A single voltage (`response/voltage.rs`): one 3-digit field with the
variant's `voltage_decimals`.  No slice split, hence no panic. -/
def Voltage.parse_args (raw : List Nat) (variant : SupplyVariant) :
    Option (RResult ℚ) :=
  some ((⟨variant.voltage_decimals, 3⟩ : ArgFormat).parse raw)

/-- A single current (`response/current.rs`): one 3-digit field with the
variant's `current_decimals`. -/
def Current.parse_args (raw : List Nat) (variant : SupplyVariant) :
    Option (RResult ℚ) :=
  some ((⟨variant.current_decimals, 3⟩ : ArgFormat).parse raw)

/-- The supply's pre-configured operating points
(`response/presets.rs`). -/
structure Presets where
  p0 : OperatingPoint
  p1 : OperatingPoint
  p2 : OperatingPoint
deriving DecidableEq

/-- `Presets::parse_operating_point`: `split_at(v_fmt.digits)` (panics on
a chunk shorter than `v_fmt.digits`), then decode voltage and current. -/
def Presets.parse_operating_point (v_fmt i_fmt : ArgFormat)
    (raw : List Nat) : Option (RResult OperatingPoint) :=
  match splitAtChecked v_fmt.digits raw with
  | none => none
  | some (v_raw, i_raw) =>
    match v_fmt.parse v_raw with
    | .error e => some (.error e)
    | .ok voltage =>
      match i_fmt.parse i_raw with
      | .error e => some (.error e)
      | .ok current => some (.ok ⟨voltage, current⟩)

/-- `Presets::parse_args`: split the argument block on `\r`; take three
chunks (each decoded as an operating point as soon as it is obtained),
and reject a fourth chunk. -/
def Presets.parse_args (raw : List Nat) (variant : SupplyVariant) :
    Option (RResult Presets) :=
  let v_fmt : ArgFormat := ⟨variant.voltage_decimals, 3⟩
  let i_fmt : ArgFormat := ⟨variant.current_decimals, 3⟩
  match raw.splitOn 13 with
  | [] => some (.error .MalformedResponse)
  | p0_raw :: rest0 =>
    pbind (Presets.parse_operating_point v_fmt i_fmt p0_raw) fun p0 =>
    match rest0 with
    | [] => some (.error .MalformedResponse)
    | p1_raw :: rest1 =>
      pbind (Presets.parse_operating_point v_fmt i_fmt p1_raw) fun p1 =>
      match rest1 with
      | [] => some (.error .MalformedResponse)
      | p2_raw :: rest2 =>
        pbind (Presets.parse_operating_point v_fmt i_fmt p2_raw) fun p2 =>
        if rest2.isEmpty then some (.ok ⟨p0, p1, p2⟩)
        else some (.error .MalformedResponse)

/-- The maximum output this hardware is capable of
(`response/capabilities.rs`). -/
structure Capabilities where
  max_voltage : ℚ
  max_current : ℚ
deriving DecidableEq

/-- `Capabilities::parse_args`: the caller-supplied variant is ignored.
The first 3 bytes decode as voltage with protocol-fixed `decimals = 1`;
the current field's precision is re-derived by autodetection from the
just-decoded voltage, falling back to `decimals = 1` on no match. -/
def Capabilities.parse_args (raw : List Nat) (_variant : SupplyVariant) :
    Option (RResult Capabilities) :=
  let volt_fmt : ArgFormat := ⟨1, 3⟩
  match splitAtChecked volt_fmt.digits raw with
  | none => none
  | some (volt_raw, curr_raw) =>
    match volt_fmt.parse volt_raw with
    | .error e => some (.error e)
    | .ok voltage =>
      let current_decimals :=
        ((variant_for_max_voltage voltage).map
          (fun v => v.current_decimals)).getD 1
      let curr_fmt : ArgFormat := ⟨current_decimals, 3⟩
      match curr_fmt.parse curr_raw with
      | .error e => some (.error e)
      | .ok current => some (.ok ⟨voltage, current⟩)

/-! ## The response frame reader (`response/core.rs`) -/

/-- The literal acknowledgment `"OK\r"`. -/
def OKbytes : List Nat := [79, 75, 13]

/-- Bytes before the acknowledgment: the argument block plus one
separator when the block is non-empty. -/
def before_ok_bytes (arg_bytes : Nat) : Nat :=
  if arg_bytes ≠ 0 then arg_bytes + 1 else arg_bytes

/-- Total frame length requested from the transport in a single read. -/
def total_bytes (arg_bytes : Nat) : Nat :=
  before_ok_bytes arg_bytes + OKbytes.length

/-- Result of the single transport read: an `io::Error` (abstracted as a
tag) or the bytes placed in the buffer (their count is the return value
of `Read::read`). -/
inductive ReadOutcome where
  | ok : List Nat → ReadOutcome
  | err : Nat → ReadOutcome
deriving DecidableEq

/-- The framing stage of `ResponseSource::get_response`: one read of
`total_bytes`, the zero/short-read checks, the `"OK\r"` check, and the
separator split, yielding the argument block handed to `parse_args`. -/
def frameArgs (arg_bytes : Nat) (read : Nat → ReadOutcome) :
    Except ResponseError (List Nat) :=
  match read (total_bytes arg_bytes) with
  | .err e => .error (.ReadFailure e)
  | .ok data =>
    if data.length = 0 then .error .NoResponse
    else if data.length ≠ total_bytes arg_bytes then
      .error .MalformedResponse
    else
      let before_ok := data.take (before_ok_bytes arg_bytes)
      let ok_block := data.drop (before_ok_bytes arg_bytes)
      if ok_block ≠ OKbytes then .error .MalformedResponse
      else if arg_bytes ≠ 0 then
        match before_ok.getLast? with
        | none => .error .MalformedResponse
        | some sep =>
          if sep ≠ 13 then .error .MalformedResponse
          else .ok before_ok.dropLast
      else .ok before_ok

/-- `ResponseSource::get_response`: frame, then hand the argument block
and the variant to the response-type-specific decoder. -/
def get_response {α : Type} (arg_bytes : Nat)
    (parse : List Nat → SupplyVariant → Option (RResult α))
    (read : Nat → ReadOutcome) (variant : SupplyVariant) :
    Option (RResult α) :=
  match frameArgs arg_bytes read with
  | .error e => some (.error e)
  | .ok args => parse args variant

/-! ## Lemmas about decimal digit strings -/

theorem toDigitsLE_fuel : ∀ f1 f2 n, n ≤ f1 → n ≤ f2 →
    toDigitsLE f1 n = toDigitsLE f2 n := by
  intro f1
  induction f1 with
  | zero =>
    intro f2 n h1 _
    interval_cases n
    cases f2 <;> simp [toDigitsLE]
  | succ f ih =>
    intro f2 n h1 h2
    match n, f2 with
    | 0, 0 => rfl
    | 0, g + 1 => simp [toDigitsLE]
    | m + 1, 0 => omega
    | m + 1, g + 1 =>
      simp only [toDigitsLE, if_neg (Nat.succ_ne_zero m)]
      have hd : (m + 1) / 10 < m + 1 := Nat.div_lt_self (Nat.succ_pos m) (by omega)
      rw [ih g ((m + 1) / 10) (by omega) (by omega)]

theorem natDigitsLE_step {n : Nat} (h : n ≠ 0) :
    natDigitsLE n = n % 10 :: natDigitsLE (n / 10) := by
  unfold natDigitsLE
  match n, h with
  | m + 1, _ =>
    simp only [toDigitsLE, if_neg (Nat.succ_ne_zero m)]
    have hd : (m + 1) / 10 < m + 1 := Nat.div_lt_self (Nat.succ_pos m) (by omega)
    rw [toDigitsLE_fuel m ((m + 1) / 10) ((m + 1) / 10) (by omega) le_rfl]

/-- Little-endian value of a digit list. -/
def valLE : List Nat → Nat
  | [] => 0
  | d :: ds => d + 10 * valLE ds

theorem natDigitsLE_val (n : Nat) : valLE (natDigitsLE n) = n := by
  induction n using Nat.strong_induction_on with
  | _ n ih =>
    by_cases h : n = 0
    · subst h; rfl
    · rw [natDigitsLE_step h]
      have hd : n / 10 < n := Nat.div_lt_self (Nat.pos_of_ne_zero h) (by omega)
      simp only [valLE, ih (n / 10) hd]
      omega

theorem natDigitsLE_len {n k : Nat} (h : n < 10 ^ k) :
    (natDigitsLE n).length ≤ k := by
  induction n using Nat.strong_induction_on generalizing k with
  | _ n ih =>
    by_cases h0 : n = 0
    · subst h0; simp [natDigitsLE, toDigitsLE]
    · match k with
      | 0 => simp at h; omega
      | j + 1 =>
        rw [natDigitsLE_step h0]
        have hd : n / 10 < n := Nat.div_lt_self (Nat.pos_of_ne_zero h0) (by omega)
        have hj : n / 10 < 10 ^ j := by
          rw [Nat.div_lt_iff_lt_mul (by omega)]
          calc n < 10 ^ (j + 1) := h
          _ = 10 ^ j * 10 := by ring
        simpa using ih (n / 10) hd hj

theorem natDigitsLE_bound {n : Nat} : ∀ d ∈ natDigitsLE n, d < 10 := by
  induction n using Nat.strong_induction_on with
  | _ n ih =>
    by_cases h0 : n = 0
    · subst h0; simp [natDigitsLE, toDigitsLE]
    · rw [natDigitsLE_step h0]
      intro d hd
      rcases List.mem_cons.mp hd with h | h
      · subst h; exact Nat.mod_lt _ (by omega)
      · exact ih (n / 10) (Nat.div_lt_self (Nat.pos_of_ne_zero h0) (by omega)) d h

theorem renderNat_digits (n : Nat) : ∀ b ∈ renderNat n, 48 ≤ b ∧ b ≤ 57 := by
  unfold renderNat
  by_cases h : n = 0
  · simp [h]
  · simp only [if_neg h, List.mem_reverse, List.mem_map]
    rintro b ⟨d, hd, rfl⟩
    have := natDigitsLE_bound d hd
    omega

theorem renderNat_ne_nil (n : Nat) : renderNat n ≠ [] := by
  unfold renderNat
  by_cases h : n = 0
  · simp [h]
  · simp only [if_neg h]
    intro hc
    have : natDigitsLE n ≠ [] := by
      rw [natDigitsLE_step h]; simp
    simp only [List.reverse_eq_nil_iff, List.map_eq_nil_iff] at hc
    exact this hc

theorem renderNat_len_le {n k : Nat} (hn : n < 10 ^ k) (hk : 1 ≤ k) :
    (renderNat n).length ≤ k := by
  unfold renderNat
  by_cases h : n = 0
  · simpa [h] using hk
  · simpa [if_neg h] using natDigitsLE_len hn

theorem foldl_digits (ds : List Nat) (acc : Nat) :
    List.foldl (fun a b => a * 10 + (b - 48)) acc
      ((ds.map (fun d => 48 + d)).reverse) =
    acc * 10 ^ ds.length + valLE ds := by
  induction ds generalizing acc with
  | nil => simp [valLE]
  | cons d tl ih =>
    simp only [List.map_cons, List.reverse_cons, List.foldl_append,
      List.foldl_cons, List.foldl_nil, ih, valLE, List.length_cons]
    ring_nf
    omega

theorem renderNat_val (n : Nat) : digitsVal (renderNat n) = n := by
  unfold renderNat digitsVal
  by_cases h : n = 0
  · simp [h]
  · simp only [if_neg h, foldl_digits, natDigitsLE_val]
    omega

theorem foldl_replicate_zero (k : Nat) :
    List.foldl (fun a b => a * 10 + (b - 48)) 0 (List.replicate k 48) = 0 := by
  induction k with
  | zero => rfl
  | succ m ih => simpa [List.replicate_succ] using ih

theorem renderPadded_val (w n : Nat) : digitsVal (renderPadded w n) = n := by
  unfold renderPadded digitsVal
  rw [List.foldl_append, foldl_replicate_zero]
  exact renderNat_val n

theorem renderPadded_digits (w n : Nat) :
    ∀ b ∈ renderPadded w n, 48 ≤ b ∧ b ≤ 57 := by
  unfold renderPadded
  intro b hb
  rcases List.mem_append.mp hb with h | h
  · have := List.eq_of_mem_replicate h
    omega
  · exact renderNat_digits n b h

theorem renderPadded_ne_nil (w n : Nat) : renderPadded w n ≠ [] := by
  unfold renderPadded
  intro hc
  exact renderNat_ne_nil n (List.append_eq_nil.mp hc).2

theorem renderPadded_len {w n : Nat} (hn : n < 10 ^ w) (hw : 1 ≤ w) :
    (renderPadded w n).length = w := by
  have hle := renderNat_len_le hn hw
  unfold renderPadded
  simp only [List.length_append, List.length_replicate]
  omega

theorem stripPlus_of_digits {bs : List Nat} (h : ∀ b ∈ bs, 48 ≤ b) :
    stripPlus bs = bs := by
  match bs with
  | [] => rfl
  | b :: tl =>
    have : 48 ≤ b := h b (List.mem_cons_self b tl)
    simp only [stripPlus, if_neg (by omega : ¬ b = 43)]

theorem rustParseUsize_render {w n : Nat} (h : n ≤ USIZE_MAX) :
    rustParseUsize (renderPadded w n) = some n := by
  unfold rustParseUsize
  rw [stripPlus_of_digits (fun b hb => (renderPadded_digits w n b hb).1)]
  rw [if_neg (by simpa [List.isEmpty_iff] using renderPadded_ne_nil w n)]
  rw [if_pos]
  · rw [renderPadded_val, if_pos h]
  · rw [List.all_eq_true]
    intro b hb
    have := renderPadded_digits w n b hb
    simp only [Bool.and_eq_true, decide_eq_true_eq]
    omega

theorem parse_renderPadded (f : ArgFormat) (n : Nat)
    (hn : n < 10 ^ f.digits) (hw : 1 ≤ f.digits) (hm : n ≤ USIZE_MAX) :
    f.parse (renderPadded f.digits n) = .ok ((n : ℚ) / f.factor) := by
  unfold ArgFormat.parse
  rw [if_neg (fun hc => hc (renderPadded_len hn hw))]
  rw [rustParseUsize_render hm]

/-! ## Lemmas about rounding and `output_val` -/

theorem rustRound_eq_int (q : ℚ) (z : ℤ) (h0 : 0 ≤ q)
    (h1 : (z : ℚ) ≤ q + 1 / 2) (h2 : q + 1 / 2 < z + 1) :
    rustRound q = z := by
  unfold rustRound
  rw [if_pos h0]
  exact Int.floor_eq_iff.mpr ⟨h1, h2⟩

theorem rustRound_natCast (n : ℕ) : rustRound (n : ℚ) = n := by
  apply rustRound_eq_int _ _ (by positivity) <;> push_cast <;> linarith

theorem rustRound_nonneg {q : ℚ} (h : 0 ≤ q) : 0 ≤ rustRound q := by
  unfold rustRound
  rw [if_pos h]
  exact Int.le_floor.mpr (by push_cast; linarith)

theorem rustRound_le_nat {q : ℚ} {m : ℕ} (h0 : 0 ≤ q) (h : q ≤ m) :
    rustRound q ≤ m := by
  unfold rustRound
  rw [if_pos h0]
  have hlt := Int.floor_lt.mpr
    (show (q + 1 / 2 : ℚ) < ((m : ℤ) + 1 : ℤ) by push_cast; linarith)
  omega

theorem factor_pos (f : ArgFormat) : 0 < f.factor := by
  unfold ArgFormat.factor; positivity

theorem max_mul_factor (f : ArgFormat) :
    f.max * f.factor = 10 ^ f.digits - 1 := by
  unfold ArgFormat.max
  exact div_mul_cancel₀ _ (ne_of_gt (factor_pos f))

theorem scaled_le {f : ArgFormat} {v : ℚ} (hm : v ≤ f.max) :
    v * f.factor ≤ (10 : ℚ) ^ f.digits - 1 := by
  calc v * f.factor ≤ f.max * f.factor :=
        mul_le_mul_of_nonneg_right hm (le_of_lt (factor_pos f))
  _ = _ := max_mul_factor f

theorem pow_sub_one_cast (k : ℕ) :
    ((10 ^ k - 1 : ℕ) : ℚ) = 10 ^ k - 1 := by
  have h : (1 : ℕ) ≤ 10 ^ k := Nat.one_le_pow _ _ (by norm_num)
  push_cast [h]
  ring

theorem output_val_none_iff (f : ArgFormat) (v : ℚ) :
    f.output_val v = none ↔ (v < 0 ∨ f.max < v) := by
  unfold ArgFormat.output_val
  split <;> simp_all

theorem output_val_accepted (f : ArgFormat) (v : ℚ)
    (h : ¬(v < 0 ∨ f.max < v)) :
    f.output_val v = some (f32_to_u32 (rustRound (v * f.factor))) := by
  unfold ArgFormat.output_val
  rw [if_neg h]

theorem output_val_exact (f : ArgFormat) (v : ℚ) (n : ℕ)
    (h0 : 0 ≤ v) (hm : v ≤ f.max) (heq : v * f.factor = n) :
    f.output_val v = some (min n U32_MAX) := by
  rw [output_val_accepted f v (by push_neg; exact ⟨h0, hm⟩), heq,
    rustRound_natCast]
  unfold f32_to_u32
  simp

theorem serialize_arg_ok (f : ArgFormat) (sink : List Nat) (v : ℚ) (n : ℕ)
    (h : f.output_val v = some n) :
    f.serialize_arg sink v = (none, sink ++ renderPadded f.digits n) := by
  unfold ArgFormat.serialize_arg
  rw [h]

theorem serialize_arg_err (f : ArgFormat) (sink : List Nat) (v : ℚ)
    (h : f.output_val v = none) :
    f.serialize_arg sink v = (some (.ValueUnrepresentable v), sink) := by
  unfold ArgFormat.serialize_arg
  rw [h]

/-- The codec round-trip core: an in-range value that is an exact multiple
of `10^-decimals` serializes to exactly `digits` ASCII digit bytes and
parses back to itself. -/
theorem codec_roundtrip (f : ArgFormat) (v : ℚ) (n : ℕ)
    (hd1 : 1 ≤ f.digits) (hd9 : f.digits ≤ 9)
    (h0 : 0 ≤ v) (hm : v ≤ f.max) (heq : v * f.factor = n) :
    f.serialize_arg [] v = (none, renderPadded f.digits n) ∧
    (renderPadded f.digits n).length = f.digits ∧
    (∀ b ∈ renderPadded f.digits n, 48 ≤ b ∧ b ≤ 57) ∧
    f.parse (renderPadded f.digits n) = .ok v := by
  have hb : (n : ℚ) ≤ (10 : ℚ) ^ f.digits - 1 := heq ▸ scaled_le hm
  have hnat : n ≤ 10 ^ f.digits - 1 := by
    rw [← pow_sub_one_cast f.digits] at hb
    exact_mod_cast hb
  have h1p : (1 : ℕ) ≤ 10 ^ f.digits := Nat.one_le_pow _ _ (by norm_num)
  have hlt : n < 10 ^ f.digits := by omega
  have hpow9 : (10 : ℕ) ^ f.digits ≤ 10 ^ 9 :=
    Nat.pow_le_pow_right (by norm_num) hd9
  have husize : n ≤ USIZE_MAX := by unfold USIZE_MAX; norm_num at hpow9 ⊢; omega
  have hmin : min n U32_MAX = n := by unfold U32_MAX; norm_num at hpow9 ⊢; omega
  have hov : f.output_val v = some n := by
    rw [output_val_exact f v n h0 hm heq, hmin]
  refine ⟨?_, renderPadded_len hlt hd1, renderPadded_digits _ _, ?_⟩
  · rw [serialize_arg_ok f [] v n hov]
    simp
  · rw [parse_renderPadded f n hlt hd1 husize]
    have : (n : ℚ) / f.factor = v :=
      (div_eq_iff (ne_of_gt (factor_pos f))).mpr heq.symm
    rw [this]

/-! ## Claim C1 -/

/-- C1: for every supply variant and each of its two `(decimals, digits=3)`
descriptors, every value `v` in `[0, (10^digits-1)/10^decimals]` that the
`10^decimals` scaling makes exact (the claim's floating-point-rounding
caveat, made precise as `v * 10^decimals = n` for an integer `n`)
round-trips: serialization succeeds, the serialized string has exactly
`digits` characters, all ASCII decimal digits, and parsing it returns `v`
exactly. -/
theorem C1_codec_roundtrip : ∀ variant ∈ supplyRegistry,
    ∀ fmt ∈ ([⟨variant.voltage_decimals, 3⟩,
              ⟨variant.current_decimals, 3⟩] : List ArgFormat),
    ∀ (v : ℚ) (n : ℕ), 0 ≤ v → v ≤ fmt.max → v * fmt.factor = n →
    ∃ s, fmt.serialize_arg [] v = (none, s) ∧ s.length = fmt.digits ∧
      (∀ b ∈ s, 48 ≤ b ∧ b ≤ 57) ∧ fmt.parse s = .ok v := by
  intro variant _ fmt hfmt v n h0 hm heq
  have hd : fmt.digits = 3 := by
    rcases List.mem_cons.mp hfmt with rfl | hfmt2
    · rfl
    · rcases List.mem_cons.mp hfmt2 with rfl | h
      · rfl
      · simp at h
  obtain ⟨h1, h2, h3, h4⟩ :=
    codec_roundtrip fmt v n (by omega) (by omega) h0 hm heq
  exact ⟨_, h1, h2, h3, h4⟩

/-- C1 witness: `12.3` on the BK1685B voltage descriptor `(1, 3)`. -/
theorem C1_codec_roundtrip_witness :
    ∃ s, (⟨1, 3⟩ : ArgFormat).serialize_arg [] (123 / 10) = (none, s) ∧
      s.length = (⟨1, 3⟩ : ArgFormat).digits ∧
      (∀ b ∈ s, 48 ≤ b ∧ b ≤ 57) ∧
      (⟨1, 3⟩ : ArgFormat).parse s = .ok (123 / 10) :=
  C1_codec_roundtrip BK1685B (by decide) ⟨1, 3⟩ (by decide) (123 / 10) 123
    (by norm_num) (by norm_num [ArgFormat.max, ArgFormat.factor])
    (by norm_num [ArgFormat.factor])

/-! ## Claim C5 -/

/-- C5 counterexample: at descriptor `(decimals 0, digits 10)` the value
`5000000000` is accepted, but the emitted digits are the `u32`-saturated
`"4294967295"`, not `round(5000000000 * 10^0) = "5000000000"` as the claim
states. -/
theorem C5_saturation_counterexample :
    (⟨0, 10⟩ : ArgFormat).serialize_arg [] 5000000000 =
      (none, asciiOf "4294967295") ∧
    asciiOf "4294967295" ≠ asciiOf "5000000000" := by
  constructor
  · have hov := output_val_exact ⟨0, 10⟩ 5000000000 5000000000
      (by norm_num) (by norm_num [ArgFormat.max, ArgFormat.factor])
      (by norm_num [ArgFormat.factor])
    rw [serialize_arg_ok ⟨0, 10⟩ [] _ 4294967295
      (by rw [hov]; norm_num [U32_MAX])]
    simp only [List.nil_append, Prod.mk.injEq]
    exact ⟨trivial, by decide⟩
  · decide

/-- C5 (amended): encoding fails with `ValueUnrepresentable` exactly when
the value is negative or exceeds `(10^digits - 1)/10^decimals` (non-finite
floats are outside the exact-rational model); for an accepted value the
emitted bytes append the `u32`-saturated scaled integer, zero-padded, and
whenever `1 ≤ digits ≤ 9` (every descriptor the crate constructs) no
saturation occurs: the string has exactly `digits` ASCII-digit characters
and reads back as `round(value * 10^decimals)`, rounded to nearest with
ties away from zero; `12.99` at `(1, 3)` encodes to `"130"`. -/
theorem C5_encode_amended :
    (∀ (f : ArgFormat) (v : ℚ),
      (f.serialize_arg [] v = (some (.ValueUnrepresentable v), []) ↔
        (v < 0 ∨ f.max < v)) ∧
      (¬(v < 0 ∨ f.max < v) → 1 ≤ f.digits → f.digits ≤ 9 →
        ∃ s, f.serialize_arg [] v = (none, s) ∧ s.length = f.digits ∧
          (∀ b ∈ s, 48 ≤ b ∧ b ≤ 57) ∧
          (digitsVal s : ℤ) = rustRound (v * f.factor))) ∧
    (⟨1, 3⟩ : ArgFormat).serialize_arg [] (1299 / 100) =
      (none, asciiOf "130") := by
  constructor
  · intro f v
    constructor
    · constructor
      · intro h
        by_contra hc
        rw [serialize_arg_ok f [] v _ (output_val_accepted f v hc)] at h
        simp at h
      · intro h
        exact serialize_arg_err f [] v ((output_val_none_iff f v).mpr h)
    · intro hacc hd1 hd9
      obtain ⟨hc1, hc2⟩ := not_or.mp hacc
      have h0 : 0 ≤ v := not_lt.mp hc1
      have hm : v ≤ f.max := not_lt.mp hc2
      have hqnn : 0 ≤ v * f.factor := mul_nonneg h0 (le_of_lt (factor_pos f))
      have hzn : 0 ≤ rustRound (v * f.factor) := rustRound_nonneg hqnn
      have hub : rustRound (v * f.factor) ≤ ((10 ^ f.digits - 1 : ℕ) : ℤ) := by
        apply rustRound_le_nat hqnn
        rw [pow_sub_one_cast]
        exact scaled_le hm
      have hcast : ((rustRound (v * f.factor)).toNat : ℤ) =
          rustRound (v * f.factor) := Int.toNat_of_nonneg hzn
      have h1p : (1 : ℕ) ≤ 10 ^ f.digits := Nat.one_le_pow _ _ (by norm_num)
      have hlt : (rustRound (v * f.factor)).toNat < 10 ^ f.digits := by omega
      have hpow9 : (10 : ℕ) ^ f.digits ≤ 10 ^ 9 :=
        Nat.pow_le_pow_right (by norm_num) hd9
      have hov : f.output_val v =
          some ((rustRound (v * f.factor)).toNat) := by
        rw [output_val_accepted f v hacc]
        unfold f32_to_u32 U32_MAX
        norm_num at hpow9
        congr 1
        omega
      refine ⟨renderPadded f.digits ((rustRound (v * f.factor)).toNat),
        by rw [serialize_arg_ok f [] v _ hov]; simp,
        renderPadded_len hlt hd1, renderPadded_digits _ _, ?_⟩
      rw [renderPadded_val]
      exact hcast
  · have hr : rustRound ((1299 / 100 : ℚ) * (⟨1, 3⟩ : ArgFormat).factor) =
        130 := by
      apply rustRound_eq_int _ _ ?_ ?_ ?_ <;>
        norm_num [ArgFormat.factor]
    have hov : (⟨1, 3⟩ : ArgFormat).output_val (1299 / 100) = some 130 := by
      rw [output_val_accepted _ _
        (by push_neg; norm_num [ArgFormat.max, ArgFormat.factor])]
      rw [hr]
      decide
    rw [serialize_arg_ok _ _ _ _ hov]
    simp only [List.nil_append, Prod.mk.injEq]
    exact ⟨trivial, by decide⟩

/-- C5 witness: the status-format descriptor `(2, 4)` at `56.78`. -/
theorem C5_encode_amended_witness :
    ∃ s, (⟨2, 4⟩ : ArgFormat).serialize_arg [] (5678 / 100) = (none, s) ∧
      s.length = (⟨2, 4⟩ : ArgFormat).digits ∧
      (∀ b ∈ s, 48 ≤ b ∧ b ≤ 57) ∧
      (digitsVal s : ℤ) =
        rustRound ((5678 / 100) * (⟨2, 4⟩ : ArgFormat).factor) :=
  (C5_encode_amended.1 ⟨2, 4⟩ (5678 / 100)).2
    (by push_neg; norm_num [ArgFormat.max, ArgFormat.factor])
    (by norm_num) (by norm_num)

/-! ## Claim C4 -/

theorem rustParseUsize_some_iff (bs : List Nat) :
    (rustParseUsize bs).isSome ↔
      (stripPlus bs ≠ [] ∧ (∀ b ∈ stripPlus bs, 48 ≤ b ∧ b ≤ 57) ∧
        digitsVal (stripPlus bs) ≤ USIZE_MAX) := by
  unfold rustParseUsize
  simp only [List.isEmpty_iff, List.all_eq_true, Bool.and_eq_true,
    decide_eq_true_eq]
  split_ifs with h1 h2 h3 <;> simp_all

theorem C4_plus_sign_counterexample :
    (asciiOf "+23").length = 3 ∧
    (∃ b ∈ asciiOf "+23", ¬(48 ≤ b ∧ b ≤ 57)) ∧
    (⟨0, 3⟩ : ArgFormat).parse (asciiOf "+23") = .ok 23 := by
  refine ⟨by decide, ⟨43, by decide, by decide⟩, ?_⟩
  unfold ArgFormat.parse
  rw [if_neg (by decide)]
  rw [show rustParseUsize (asciiOf "+23") = some 23 from by decide]
  norm_num [ArgFormat.factor]

/-- C4 (amended): `ArgFormat::parse` fails (always with
`MalformedResponse`) iff the slice length differs from `digits`, or the
slice — after stripping one optional leading `'+'` accepted by
`usize::from_str_radix` — is not one-or-more ASCII decimal digits, or the
parsed integer exceeds `usize::MAX`; otherwise it returns
`parsed_integer / 10^decimals`.  In particular a `digits`-length slice
with a leading `'+'` such as `"+23"` is accepted, not rejected. -/
theorem C4_parse_amended :
    ∀ (f : ArgFormat) (raw : List Nat),
      (f.parse raw = .error .MalformedResponse ↔
        ¬(raw.length = f.digits ∧ stripPlus raw ≠ [] ∧
          (∀ b ∈ stripPlus raw, 48 ≤ b ∧ b ≤ 57) ∧
          digitsVal (stripPlus raw) ≤ USIZE_MAX)) ∧
      (∀ n : ℕ, raw.length = f.digits → rustParseUsize raw = some n →
        f.parse raw = .ok ((n : ℚ) / f.factor)) := by
  intro f raw
  constructor
  · unfold ArgFormat.parse
    by_cases hl : raw.length ≠ f.digits
    · rw [if_pos hl]
      exact ⟨fun _ hc => hl hc.1, fun _ => rfl⟩
    · push_neg at hl
      rw [if_neg (by simp [hl])]
      cases hp : rustParseUsize raw with
      | none =>
        constructor
        · intro _ hc
          have hs := (rustParseUsize_some_iff raw).mpr
            ⟨hc.2.1, hc.2.2.1, hc.2.2.2⟩
          rw [hp] at hs
          simp at hs
        · intro _; rfl
      | some n =>
        have hsome := (rustParseUsize_some_iff raw).mp (by rw [hp]; rfl)
        constructor
        · intro hc; exact absurd hc (by simp)
        · intro hc; exact absurd ⟨hl, hsome.1, hsome.2.1, hsome.2.2⟩ hc
  · intro n hl hp
    unfold ArgFormat.parse
    rw [if_neg (by simp [hl]), hp]

/-- C4 witness: the all-digit slice `"042"` parses to `42 / 10^0`. -/
theorem C4_parse_amended_witness :
    (⟨0, 3⟩ : ArgFormat).parse (asciiOf "042") =
      .ok ((42 : ℕ) / (⟨0, 3⟩ : ArgFormat).factor) :=
  (C4_parse_amended ⟨0, 3⟩ (asciiOf "042")).2 42 (by decide) (by decide)

/-! ## Claim C3 -/

theorem serializeFields_append (a b : List (ArgFormat × ℚ))
    (sink : List Nat) :
    serializeFields (a ++ b) sink =
      match serializeFields a sink with
      | (some e, s) => (some e, s)
      | (none, s) => serializeFields b s := by
  induction a generalizing sink with
  | nil => simp [serializeFields]
  | cons fv tl ih =>
    obtain ⟨f, v⟩ := fv
    simp only [List.cons_append, serializeFields]
    cases h : f.output_val v with
    | none => simp
    | some n => simp [ih]

/-- Evaluation helper: the value `0` on a `(1, 3)` field. -/
theorem output_val_d1w3_zero : (⟨1, 3⟩ : ArgFormat).output_val 0 = some 0 := by
  have h := output_val_exact ⟨1, 3⟩ 0 0 le_rfl
    (by norm_num [ArgFormat.max, ArgFormat.factor]) (by norm_num)
  simpa using h

/-- Evaluation helper: the value `100` overflows a `(1, 3)` field. -/
theorem output_val_d1w3_hundred :
    (⟨1, 3⟩ : ArgFormat).output_val 100 = none := by
  rw [output_val_none_iff]
  right
  norm_num [ArgFormat.max, ArgFormat.factor]

/-- Evaluation helper: the two all-zero fields preceding the failing field
of the C3 scenario write `"PROM000000"` into the sink. -/
theorem serializeFields_PROM_prefix :
    serializeFields [(⟨1, 3⟩, (0 : ℚ)), (⟨1, 3⟩, 0)] (asciiOf "PROM") =
      (none, asciiOf "PROM000000") := by
  simp only [serializeFields, output_val_d1w3_zero]
  exact Prod.ext rfl (by decide)

/-- C3 counterexample: `SetPresets` on the BK1687B with an unrepresentable
second-preset voltage surfaces `ValueUnrepresentable(100)`, but the sink
has already received the function code and the first operating point —
ten bytes, not the zero bytes the claim asserts. -/
theorem C3_partial_write_counterexample :
    SetPresets.send BK1687B ⟨0, 0⟩ ⟨100, 0⟩ ⟨0, 0⟩ =
      (some (.ValueUnrepresentable 100), asciiOf "PROM000000") ∧
    asciiOf "PROM000000" ≠ [] := by
  constructor
  · unfold SetPresets.send send_command SetPresets.fields
    simp only [show BK1687B.voltage_decimals = 1 from rfl,
      show BK1687B.current_decimals = 1 from rfl]
    simp only [serializeFields, output_val_d1w3_zero,
      output_val_d1w3_hundred]
    exact Prod.ext rfl (by decide)
  · decide

/-- C3 (amended): when an argument field fails to encode, serialization
surfaces the first failing field's `ValueUnrepresentable` error and stops
— no later field and no terminator byte is written — but the function
code and the earlier successfully-encoded fields have already been
written to the caller's sink (the sink is exactly the output of the
successful prefix). -/
theorem C3_first_failure : ∀ (function : List Nat)
    (pre : List (ArgFormat × ℚ)) (f : ArgFormat) (v : ℚ)
    (rest : List (ArgFormat × ℚ)) (sinkPre : List Nat),
    serializeFields pre function = (none, sinkPre) →
    f.output_val v = none →
    send_command function (pre ++ (f, v) :: rest) =
      (some (.ValueUnrepresentable v), sinkPre) := by
  intro fn pre f v rest sp hpre hov
  unfold send_command
  rw [serializeFields_append, hpre]
  simp [serializeFields, hov]

/-- C3 witness: the counterexample scenario, derived from the amended
theorem by exhibiting the failing field and the successful prefix. -/
theorem C3_first_failure_witness :
    send_command (asciiOf "PROM")
      ([(⟨1, 3⟩, (0 : ℚ)), (⟨1, 3⟩, 0)] ++
        (⟨1, 3⟩, (100 : ℚ)) ::
          [(⟨1, 3⟩, (0 : ℚ)), (⟨1, 3⟩, 0), (⟨1, 3⟩, 0)]) =
      (some (.ValueUnrepresentable 100), asciiOf "PROM000000") :=
  C3_first_failure (asciiOf "PROM") _ ⟨1, 3⟩ 100 _ _
    serializeFields_PROM_prefix output_val_d1w3_hundred

/-! ## Claim C9 -/

/-- Evaluation helper: `0` and `1` on the protocol-fixed `(0, 1)` flag
field. -/
theorem output_val_flag (k : ℕ) (hk : k ≤ 9) :
    (⟨0, 1⟩ : ArgFormat).output_val (k : ℚ) = some k := by
  have h := output_val_exact ⟨0, 1⟩ (k : ℚ) k (by positivity)
    (by
      unfold ArgFormat.max ArgFormat.factor
      push_cast
      norm_num
      exact_mod_cast hk)
    (by norm_num [ArgFormat.factor])
  rw [h]
  unfold U32_MAX
  congr 1
  omega

/-- C9: for every supply variant, `SetOutput(On)` serializes to exactly
`"SOUT0\r"` and `SetOutput(Off)` to exactly `"SOUT1\r"` (inverted logic:
digit 0 means on, 1 means off), and serialization never fails. -/
theorem C9_set_output_inverted : ∀ variant : SupplyVariant,
    SetOutput.send variant .On = (none, asciiOf "SOUT0\r") ∧
    SetOutput.send variant .Off = (none, asciiOf "SOUT1\r") := by
  intro variant
  constructor
  · unfold SetOutput.send send_command SetOutput.fields
    simp only [serializeFields, OutputState.arg_val,
      output_val_flag 0 (by norm_num)]
    exact Prod.ext rfl (by decide)
  · unfold SetOutput.send send_command SetOutput.fields
    simp only [serializeFields, OutputState.arg_val,
      output_val_flag 1 (by norm_num)]
    exact Prod.ext rfl (by decide)

/-- C9 witness: the theorem instantiated at the BK1685B. -/
theorem C9_set_output_inverted_witness :
    SetOutput.send BK1685B .On = (none, asciiOf "SOUT0\r") :=
  (C9_set_output_inverted BK1685B).1

/-! ## Claim C8 -/

theorem bandContains_iff (s : SupplyVariant) (v : ℚ) :
    bandContains s v = true ↔
      ((s.nominal_max_voltage : ℚ) ≤ v ∧
        v < (s.nominal_max_voltage : ℚ) + 10) := by
  unfold bandContains
  simp [Bool.and_eq_true, decide_eq_true_eq]

theorem bandContains_BK1685B (v : ℚ) :
    bandContains BK1685B v = true ↔ (60 ≤ v ∧ v < 70) := by
  rw [bandContains_iff]
  norm_num [BK1685B]

theorem bandContains_BK1687B (v : ℚ) :
    bandContains BK1687B v = true ↔ (36 ≤ v ∧ v < 46) := by
  rw [bandContains_iff]
  norm_num [BK1687B]

theorem bandContains_BK1688B (v : ℚ) :
    bandContains BK1688B v = true ↔ (18 ≤ v ∧ v < 28) := by
  rw [bandContains_iff]
  norm_num [BK1688B]

/-- C8: `variant_for_max_voltage` returns the first (here: unique, since
the three bands `[60,70)`, `[36,46)`, `[18,28)` are pairwise disjoint)
registry entry whose band `[nominal, nominal+10)` contains the voltage,
and `none` when no band does; `60.1` resolves to the 60 V / 5 A model and
`47.2` (between bands) resolves to `none` without an error. -/
theorem C8_variant_autodetection :
    (∀ (v : ℚ) (s : SupplyVariant),
      variant_for_max_voltage v = some s ↔
        (s ∈ supplyRegistry ∧ bandContains s v = true)) ∧
    (∀ v : ℚ, variant_for_max_voltage v = none ↔
      ∀ s ∈ supplyRegistry, bandContains s v = false) ∧
    variant_for_max_voltage (60.1 : ℚ) = some BK1685B ∧
    variant_for_max_voltage (47.2 : ℚ) = none := by
  have bfalse : ∀ (s : SupplyVariant) (v : ℚ) (lo hi : ℚ),
      (bandContains s v = true ↔ (lo ≤ v ∧ v < hi)) →
      ¬(lo ≤ v ∧ v < hi) → bandContains s v = false := by
    intro s v lo hi hiff hno
    cases hb : bandContains s v
    · rfl
    · exact absurd (hiff.mp hb) hno
  refine ⟨?_, ?_, ?_, ?_⟩
  · intro v s
    constructor
    · intro h
      unfold variant_for_max_voltage at h
      have hmem := List.mem_of_find?_eq_some h
      have hband := List.find?_some h
      exact ⟨hmem, hband⟩
    · rintro ⟨hmem, hband⟩
      simp only [supplyRegistry, List.mem_cons, List.not_mem_nil,
        or_false] at hmem
      unfold variant_for_max_voltage supplyRegistry
      rcases hmem with rfl | rfl | rfl
      · simp [List.find?, hband]
      · have h67 := (bandContains_BK1687B v).mp hband
        have hAf := bfalse BK1685B v 60 70 (bandContains_BK1685B v)
          (by rintro ⟨h1, -⟩; linarith [h67.2])
        simp [List.find?, hAf, hband]
      · have h68 := (bandContains_BK1688B v).mp hband
        have hAf := bfalse BK1685B v 60 70 (bandContains_BK1685B v)
          (by rintro ⟨h1, -⟩; linarith [h68.2])
        have hBf := bfalse BK1687B v 36 46 (bandContains_BK1687B v)
          (by rintro ⟨h1, -⟩; linarith [h68.2])
        simp [List.find?, hAf, hBf, hband]
  · intro v
    unfold variant_for_max_voltage
    rw [List.find?_eq_none]
    constructor
    · intro h s hs
      have := h s hs
      simpa using this
    · intro h s hs
      simp [h s hs]
  · have hA := (bandContains_BK1685B (60.1 : ℚ)).mpr (by norm_num)
    unfold variant_for_max_voltage supplyRegistry
    simp [List.find?, hA]
  · have hA := bfalse BK1685B (47.2 : ℚ) 60 70 (bandContains_BK1685B _)
      (by norm_num)
    have hB := bfalse BK1687B (47.2 : ℚ) 36 46 (bandContains_BK1687B _)
      (by norm_num)
    have hC := bfalse BK1688B (47.2 : ℚ) 18 28 (bandContains_BK1688B _)
      (by norm_num)
    unfold variant_for_max_voltage supplyRegistry
    simp [List.find?, hA, hB, hC]

/-- C8 witness: the concrete autodetection vector from the theorem. -/
theorem C8_variant_autodetection_witness :
    variant_for_max_voltage (60.1 : ℚ) = some BK1685B :=
  C8_variant_autodetection.2.2.1

/-! ## Claim C7 -/

/-- C7: the capabilities decoder never consults the caller-supplied
variant: on any 6-byte argument block, any two variants give identical
results (the parameter is dead in the source; the voltage field uses the
protocol-fixed `⟨1, 3⟩` descriptor and the current field's precision comes
from `variant_for_max_voltage` on the decoded voltage, defaulting to 1). -/
theorem C7_capabilities_ignore_variant :
    ∀ (raw : List Nat) (v1 v2 : SupplyVariant), raw.length = 6 →
      Capabilities.parse_args raw v1 = Capabilities.parse_args raw v2 := by
  intro raw v1 v2 _
  rfl

/-- C7 witness: a concrete 6-byte block decoded against two different
variants. -/
theorem C7_capabilities_ignore_variant_witness :
    Capabilities.parse_args (asciiOf "601501") BK1685B =
      Capabilities.parse_args (asciiOf "601501") BK1688B :=
  C7_capabilities_ignore_variant (asciiOf "601501") BK1685B BK1688B
    (by decide)

/-! ## Claim C6 -/

/-- C6: the frame reader requests `arg_bytes + 1 + 3` bytes when
`arg_bytes > 0` (else 3) in a single read — its outcome depends on the
transport only through that one request — and maps a zero-byte read to
`NoResponse`, any other wrong byte count to `MalformedResponse`, and a
transport error to `ReadFailure`. -/
theorem C6_frame_reader : ∀ {α : Type} (arg_bytes : Nat)
    (parse : List Nat → SupplyVariant → Option (RResult α))
    (read : Nat → ReadOutcome) (variant : SupplyVariant),
    (arg_bytes ≠ 0 → total_bytes arg_bytes = arg_bytes + 1 + 3) ∧
    (arg_bytes = 0 → total_bytes arg_bytes = 3) ∧
    (∀ e, read (total_bytes arg_bytes) = .err e →
      get_response arg_bytes parse read variant =
        some (.error (.ReadFailure e))) ∧
    (∀ data, read (total_bytes arg_bytes) = .ok data → data.length = 0 →
      get_response arg_bytes parse read variant =
        some (.error .NoResponse)) ∧
    (∀ data, read (total_bytes arg_bytes) = .ok data → data.length ≠ 0 →
      data.length ≠ total_bytes arg_bytes →
      get_response arg_bytes parse read variant =
        some (.error .MalformedResponse)) ∧
    (∀ read' : Nat → ReadOutcome,
      read' (total_bytes arg_bytes) = read (total_bytes arg_bytes) →
      get_response arg_bytes parse read' variant =
        get_response arg_bytes parse read variant) := by
  intro α ab parse read variant
  refine ⟨?_, ?_, ?_, ?_, ?_, ?_⟩
  · intro h
    unfold total_bytes before_ok_bytes OKbytes
    simp [h]
  · intro h
    subst h
    rfl
  · intro e h
    unfold get_response frameArgs
    rw [h]
  · intro data h hlen
    unfold get_response frameArgs
    simp only [h, hlen]
    rfl
  · intro data h hlen hne
    unfold get_response frameArgs
    simp only [h, if_neg hlen, if_pos hne]
  · intro read' h
    unfold get_response frameArgs
    rw [h]

/-- C6 witness: a 2-byte read where a Settings frame needs 10 bytes is
`MalformedResponse`. -/
theorem C6_frame_reader_witness :
    get_response 6 Settings.parse_args
      (fun _ => ReadOutcome.ok [49, 50]) BK1685B =
      some (.error .MalformedResponse) :=
  (C6_frame_reader 6 Settings.parse_args
    (fun _ => ReadOutcome.ok [49, 50]) BK1685B).2.2.2.2.1 [49, 50]
    rfl (by decide) (by decide)

/-! ## Claim C10 -/

/-- C10: whenever the framing stage hands an argument block to a decoder,
that block has exactly the declared `arg_bytes` length; consequently the
fixed-offset splits inside the Settings (6 bytes, split at 3), Status
(9 bytes, split-last then split at 4) and Capabilities (6 bytes, split at
3) decoders never panic on a correctly-framed block (the Voltage and
Current decoders contain no split at all). -/
theorem C10_decoder_input_lengths :
    (∀ (arg_bytes : Nat) (read : Nat → ReadOutcome) (args : List Nat),
      frameArgs arg_bytes read = .ok args → args.length = arg_bytes) ∧
    (∀ (raw : List Nat) (variant : SupplyVariant), raw.length = 6 →
      Settings.parse_args raw variant ≠ none) ∧
    (∀ (raw : List Nat) (variant : SupplyVariant), raw.length = 9 →
      Status.parse_args raw variant ≠ none) ∧
    (∀ (raw : List Nat) (variant : SupplyVariant), raw.length = 6 →
      Capabilities.parse_args raw variant ≠ none) := by
  refine ⟨?_, ?_, ?_, ?_⟩
  · intro ab read args h
    unfold frameArgs at h
    cases hr : read (total_bytes ab) with
    | err e =>
      simp only [hr] at h
      simp at h
    | ok data =>
      simp only [hr] at h
      by_cases h0 : data.length = 0
      · rw [if_pos h0] at h
        simp at h
      · rw [if_neg h0] at h
        by_cases hne : data.length ≠ total_bytes ab
        · rw [if_pos hne] at h
          simp at h
        · rw [if_neg hne] at h
          push_neg at hne
          by_cases hok : data.drop (before_ok_bytes ab) ≠ OKbytes
          · rw [if_pos hok] at h
            simp at h
          · rw [if_neg hok] at h
            by_cases hab : ab ≠ 0
            · rw [if_pos hab] at h
              have htake : (data.take (before_ok_bytes ab)).length =
                  before_ok_bytes ab := by
                rw [List.length_take, hne]
                unfold total_bytes
                omega
              cases hgl : (data.take (before_ok_bytes ab)).getLast? with
              | none =>
                simp only [hgl] at h
                simp at h
              | some sep =>
                simp only [hgl] at h
                by_cases hsep : sep ≠ 13
                · rw [if_pos hsep] at h
                  simp at h
                · rw [if_neg hsep] at h
                  simp only [Except.ok.injEq] at h
                  rw [← h, List.length_dropLast, htake]
                  unfold before_ok_bytes
                  rw [if_pos hab]
                  omega
            · rw [if_neg hab] at h
              push_neg at hab
              simp only [Except.ok.injEq] at h
              rw [← h, List.length_take]
              unfold before_ok_bytes
              rw [if_neg (by omega), hab]
              omega
  · intro raw variant hlen
    unfold Settings.parse_args
    have hsp : splitAtChecked 3 raw = some (raw.take 3, raw.drop 3) := by
      unfold splitAtChecked
      rw [if_pos (by omega)]
    simp only [hsp]
    cases h1 : (⟨variant.voltage_decimals, 3⟩ : ArgFormat).parse
        (raw.take 3) with
    | error e => simp [h1]
    | ok volt =>
      cases h2 : (⟨variant.current_decimals, 3⟩ : ArgFormat).parse
          (raw.drop 3) with
      | error e => simp [h1, h2]
      | ok curr => simp [h1, h2]
  · intro raw variant hlen
    unfold Status.parse_args
    cases hrev : raw.reverse with
    | nil => simp
    | cons mode_raw rev_args =>
      have hrlen : rev_args.reverse.length = 8 := by
        have h1 := congrArg List.length hrev
        simp only [List.length_reverse, List.length_cons] at h1 ⊢
        omega
      have hsp : splitAtChecked 4 rev_args.reverse =
          some (rev_args.reverse.take 4, rev_args.reverse.drop 4) := by
        unfold splitAtChecked
        rw [if_pos (by omega)]
      simp only [hsp]
      cases h1 : (⟨2, 4⟩ : ArgFormat).parse (rev_args.reverse.take 4) with
      | error e => simp [h1]
      | ok volt =>
        cases h2 : (⟨2, 4⟩ : ArgFormat).parse (rev_args.reverse.drop 4) with
        | error e => simp [h1, h2]
        | ok curr =>
          simp only [h1, h2]
          split_ifs <;> simp
  · intro raw variant hlen
    unfold Capabilities.parse_args
    have hsp : splitAtChecked 3 raw = some (raw.take 3, raw.drop 3) := by
      unfold splitAtChecked
      rw [if_pos (by omega)]
    simp only [hsp]
    cases h1 : (⟨1, 3⟩ : ArgFormat).parse (raw.take 3) with
    | error e => simp [h1]
    | ok volt =>
      cases h2 : (⟨(((variant_for_max_voltage volt).map
          (fun v => v.current_decimals)).getD 1), 3⟩ : ArgFormat).parse
          (raw.drop 3) with
      | error e => simp [h1, h2]
      | ok curr => simp [h1, h2]

/-- C10 witness: a concrete successfully-framed Voltage response hands a
3-byte argument block to the decoder. -/
theorem C10_decoder_input_lengths_witness :
    (asciiOf "123").length = 3 :=
  C10_decoder_input_lengths.1 3
    (fun _ => ReadOutcome.ok (asciiOf "123\rOK\r")) (asciiOf "123")
    (by rfl)

/-! ## Claim C2 -/

/-- C2: the claim says `Presets::parse_args` is total and returns
`MalformedResponse` on any wrong-length chunk; but on the 20-byte block
`"11\r11111111111111111"` the first `\r`-chunk `"11"` is only 2 bytes and
`parse_operating_point` panics in `split_at(3)` (modelled as `none`)
instead of returning an error. -/
theorem C2_presets_short_chunk_panic :
    (asciiOf "11\r11111111111111111").length = 20 ∧
    Presets.parse_args (asciiOf "11\r11111111111111111") BK1688B = none :=
  ⟨by decide, by rfl⟩

end BK168xb
